import Mathlib

/-!
Verification of the AOS v2 archive packer/unpacker (`src/main.rs`).

Shallow embedding conventions:
- A byte is a `Nat` (values below 256 where it matters, stated as hypotheses).
- A byte stream / file content is a `List Nat`.
- A Rust `String` is represented by its UTF-8 byte sequence (`List Nat`);
  `String::from_utf8` is modelled by the executable validator `validUtf8`.
- Rust `u32` fields are `Nat`s; the `as u32` casts and wrapping `u32`
  arithmetic of the source are made explicit with `% U32_MOD`.
- `io::Result` / `anyhow::Result` become `Option` / `Except AosError`, with
  one error constructor per distinct failure site of the source.
- Filesystem effects are made explicit: `pack_directory` takes the list of
  (filename-bytes, content) pairs that `fs::read_dir` + the `is_file` filter
  produced (in enumeration order) and returns the bytes written to the
  archive file; `unpack_archive` takes the archive bytes and returns the
  list of (filename-bytes, content) writes it performs, in order, with
  `unpack_core` additionally exposing the writes performed before a failure.
-/

set_option maxRecDepth 16384

namespace AosUp

/-- Size of the packed `AosV2Hdr` struct: 4 + 4 + 4 + 261 bytes. -/
def HEADER_SIZE : Nat := 273

/-- Size of the packed `AosV2Entry` struct: 32 + 4 + 4 bytes. -/
def ENTRY_SIZE : Nat := 40

/-- `const ARCHIVE_NAME_SIZE: usize = 261` from the source. -/
def ARCHIVE_NAME_SIZE : Nat := 261

/-- `const FILENAME_SIZE: usize = 32` from the source. -/
def FILENAME_SIZE : Nat := 32

/-- Modulus of Rust `u32` arithmetic. -/
def U32_MOD : Nat := 4294967296

/-- Little-endian byte serialization of a `u32` value, as laid out by the
`#[repr(C, packed)]` structs that `to_bytes` dumps byte-for-byte. -/
def u32ToLe (n : Nat) : List Nat :=
  [n % 256, n / 256 % 256, n / 65536 % 256, n / 16777216 % 256]

/-- Little-endian read of a `u32` from the first four bytes of a buffer
(the buffers it is applied to always hold at least four bytes). -/
def leU32 : List Nat → Nat
  | b0 :: b1 :: b2 :: b3 :: _ => b0 + 256 * b1 + 65536 * b2 + 16777216 * b3
  | _ => 0

/-- Model of `Read::read_exact` into an `n`-byte buffer: succeeds with the
first `n` bytes and the remaining stream iff at least `n` bytes are
available, otherwise fails (`ErrorKind::UnexpectedEof`). -/
def readExact (n : Nat) (s : List Nat) : Option (List Nat × List Nat) :=
  if n ≤ s.length then some (s.take n, s.drop n) else none

/-- Error taxonomy: one constructor per distinct failure site of
`src/main.rs` that is inside the modelled core (filesystem and CLI errors
are outside the pure model). -/
inductive AosError where
  /-- `read_exact` failure while reading the header or a TOC entry. -/
  | truncatedInput
  /-- `String::from_utf8` failure in `get_filename_str` (line 77). -/
  | invalidFilename
  /-- `read_exact` failure while reading an entry's data (line 117). -/
  | truncatedData
  /-- the `bail!` at line 154: source filename too long. -/
  | filenameTooLong
  /-- the `bail!` at line 139: no regular files to pack. -/
  | emptyDirectory
deriving DecidableEq

/-- `struct AosV2Hdr` (`#[repr(C, packed)]`): two opaque `u32`s, the TOC
byte length, and a 261-byte archive-name buffer. -/
structure AosV2Hdr where
  unknown1 : Nat
  data_offset : Nat
  toc_length : Nat
  archive_name : List Nat
deriving DecidableEq

/-- Typing invariant of a Rust `AosV2Hdr` value: `u32` fields below `2^32`,
`[u8; 261]` buffer of exactly 261 bytes below 256. -/
def hdrValid (h : AosV2Hdr) : Prop :=
  h.unknown1 < U32_MOD ∧ h.data_offset < U32_MOD ∧ h.toc_length < U32_MOD ∧
    h.archive_name.length = ARCHIVE_NAME_SIZE ∧ ∀ b ∈ h.archive_name, b < 256

instance (h : AosV2Hdr) : Decidable (hdrValid h) := by
  unfold hdrValid; infer_instance

/-- `AosV2Hdr::to_bytes`: raw bytes of the packed struct, fields in
declaration order, `u32`s little-endian, no padding. -/
def AosV2Hdr.to_bytes (h : AosV2Hdr) : List Nat :=
  u32ToLe h.unknown1 ++ u32ToLe h.data_offset ++ u32ToLe h.toc_length ++ h.archive_name

/-- `AosV2Hdr::from_reader`: `read_exact` a 273-byte buffer from the stream,
then reinterpret it as the packed struct (fields at byte offsets 0, 4, 8,
12). Returns the decoded header and the unread remainder of the stream. -/
def AosV2Hdr.from_reader (s : List Nat) : Option (AosV2Hdr × List Nat) :=
  match readExact HEADER_SIZE s with
  | none => none
  | some (buf, rest) =>
    some ({ unknown1 := leU32 buf, data_offset := leU32 (buf.drop 4),
            toc_length := leU32 (buf.drop 8), archive_name := buf.drop 12 }, rest)

/-- `struct AosV2Entry` (`#[repr(C, packed)]`): 32-byte filename buffer,
then `offset` and `length`. -/
structure AosV2Entry where
  filename : List Nat
  offset : Nat
  length : Nat
deriving DecidableEq

/-- Typing invariant of a Rust `AosV2Entry` value. -/
def entryValid (e : AosV2Entry) : Prop :=
  e.filename.length = FILENAME_SIZE ∧ (∀ b ∈ e.filename, b < 256) ∧
    e.offset < U32_MOD ∧ e.length < U32_MOD

instance (e : AosV2Entry) : Decidable (entryValid e) := by
  unfold entryValid; infer_instance

/-- `AosV2Entry::to_bytes`: raw bytes of the packed struct. -/
def AosV2Entry.to_bytes (e : AosV2Entry) : List Nat :=
  e.filename ++ u32ToLe e.offset ++ u32ToLe e.length

/-- `AosV2Entry::from_reader`: `read_exact` a 40-byte buffer, reinterpret
(filename at offset 0, `offset` at 32, `length` at 36). -/
def AosV2Entry.from_reader (s : List Nat) : Option (AosV2Entry × List Nat) :=
  match readExact ENTRY_SIZE s with
  | none => none
  | some (buf, rest) =>
    some ({ filename := buf.take FILENAME_SIZE, offset := leU32 (buf.drop 32),
            length := leU32 (buf.drop 36) }, rest)

/-- Whether a continuation byte is in `0x80..=0xBF`. -/
def contByte (b : Nat) : Bool := 128 ≤ b && b ≤ 191

/-- Allowed range of the second byte of a three-byte sequence, given its
leading byte (excludes overlong encodings for `0xE0` and UTF-16 surrogates
for `0xED`). -/
def validSecond3 (b b1 : Nat) : Bool :=
  if b = 224 then 160 ≤ b1 && b1 ≤ 191
  else if b = 237 then 128 ≤ b1 && b1 ≤ 159
  else contByte b1

/-- Allowed range of the second byte of a four-byte sequence, given its
leading byte (excludes overlongs for `0xF0` and code points above
`U+10FFFF` for `0xF4`). -/
def validSecond4 (b b1 : Nat) : Bool :=
  if b = 240 then 144 ≤ b1 && b1 ≤ 191
  else if b = 244 then 128 ≤ b1 && b1 ≤ 143
  else contByte b1

/-- UTF-8 validation worker, structurally recursive on a fuel bound (any
fuel at least the list length gives the validator's answer; each step
consumes one to four bytes but at least one, so one unit of fuel per byte
suffices). -/
def utf8Fuel : Nat → List Nat → Bool
  | _, [] => true
  | 0, _ :: _ => false
  | fuel + 1, b :: rest =>
    if b ≤ 127 then utf8Fuel fuel rest
    else if 194 ≤ b && b ≤ 223 then
      match rest with
      | b1 :: r => contByte b1 && utf8Fuel fuel r
      | [] => false
    else if 224 ≤ b && b ≤ 239 then
      match rest with
      | b1 :: b2 :: r => validSecond3 b b1 && contByte b2 && utf8Fuel fuel r
      | _ => false
    else if 240 ≤ b && b ≤ 244 then
      match rest with
      | b1 :: b2 :: b3 :: r =>
        validSecond4 b b1 && contByte b2 && contByte b3 && utf8Fuel fuel r
      | _ => false
    else false

/-- Modelled from the Rust standard library: `String::from_utf8` succeeds
exactly on valid UTF-8 (RFC 3629: no overlong forms, no surrogate code
points, nothing above `U+10FFFF`). This executable validator accepts
precisely those byte sequences. -/
def validUtf8 (l : List Nat) : Bool := utf8Fuel l.length l

/-- `AosV2Entry::get_filename_str`: find the first zero byte (or the buffer
size if none), take the bytes before it, decode them as UTF-8. -/
def AosV2Entry.get_filename_str (e : AosV2Entry) : Except AosError (List Nat) :=
  let null_pos := (e.filename.findIdx? (· == 0)).getD FILENAME_SIZE
  let bytes := e.filename.take null_pos
  if validUtf8 bytes then .ok bytes else .error .invalidFilename

/-- Loop at lines 94–96: read `n` TOC entries sequentially from the stream
left after the header. -/
def readEntries : Nat → List Nat → Option (List AosV2Entry × List Nat)
  | 0, s => some ([], s)
  | n + 1, s =>
    match AosV2Entry.from_reader s with
    | none => none
    | some (e, rest) =>
      match readEntries n rest with
      | none => none
      | some (es, r) => some (e :: es, r)

/-- Line 107: `base_offset = size_of::<AosV2Hdr>() + toc_length`. -/
def unpack_base_offset (h : AosV2Hdr) : Nat := HEADER_SIZE + h.toc_length

/-- Line 92: `entry_count = toc_length as usize / size_of::<AosV2Entry>()`
(integer division; any remainder is silently discarded). -/
def unpack_entry_count (h : AosV2Hdr) : Nat := h.toc_length / ENTRY_SIZE

/-- Body of the extraction loop (lines 109–121) for one entry: decode the
filename, seek to `base + offset` in the archive, `read_exact` exactly
`length` bytes, and on success report the (filename, bytes) pair that
`fs::write` persists. -/
def extractEntry (archive : List Nat) (base : Nat) (e : AosV2Entry) :
    Except AosError (List Nat × List Nat) :=
  match e.get_filename_str with
  | .error err => .error err
  | .ok name =>
    match readExact e.length ((archive.drop (base + e.offset))) with
    | none => .error .truncatedData
    | some (buffer, _) => .ok (name, buffer)

/-- Extraction loop over all entries, in TOC order. Returns the list of
files written (in order) together with the error that stopped the loop, if
any: a failing entry contributes no write, and entries after it are not
processed. -/
def extractEntries (archive : List Nat) (base : Nat) :
    List AosV2Entry → List (List Nat × List Nat) × Option AosError
  | [] => ([], none)
  | e :: es =>
    match extractEntry archive base e with
    | .error err => ([], some err)
    | .ok p =>
      match extractEntries archive base es with
      | (ps, r) => (p :: ps, r)

/-- `unpack_archive` (lines 82–125) with its write trace exposed: decode the
header at offset 0, read `toc_length / 40` entries after it, then extract
each entry from the data region at `base_offset = 273 + toc_length`.
Returns the writes performed and the first error, if any. -/
def unpack_core (archive : List Nat) :
    List (List Nat × List Nat) × Option AosError :=
  match AosV2Hdr.from_reader archive with
  | none => ([], some .truncatedInput)
  | some (header, rest) =>
    match readEntries (unpack_entry_count header) rest with
    | none => ([], some .truncatedInput)
    | some (entries, _) =>
      extractEntries archive (unpack_base_offset header) entries

/-- `unpack_archive` as `fn unpack_archive` reports it: the extracted
(filename, content) pairs on success, the first error otherwise. -/
def unpack_archive (archive : List Nat) :
    Except AosError (List (List Nat × List Nat)) :=
  match unpack_core archive with
  | (ps, none) => .ok ps
  | (_, some err) => .error err

/-- Files actually written to the output directory by an unpack call, in
order, whether or not the call succeeded. -/
def unpack_writes (archive : List Nat) : List (List Nat × List Nat) :=
  (unpack_core archive).1

/-- Lines 153–165: reject a filename of `FILENAME_SIZE` bytes or more
(`bail!` at line 154), otherwise copy it into a zeroed 32-byte buffer. -/
def string_to_filename (name : List Nat) : Except AosError (List Nat) :=
  if FILENAME_SIZE ≤ name.length then .error .filenameTooLong
  else .ok (name ++ List.replicate (FILENAME_SIZE - name.length) 0)

/-- Loop at lines 147–176: build the TOC entries and the data blob. The
accumulator is `current_offset: u32`; `file_data.len() as u32` and the
wrapping `current_offset += file_length` are the explicit `% U32_MOD`. -/
def buildEntries : List (List Nat × List Nat) → Nat →
    Except AosError (List AosV2Entry × List Nat)
  | [], _ => .ok ([], [])
  | (name, content) :: files, current_offset =>
    match string_to_filename name with
    | .error err => .error err
    | .ok filename_bytes =>
      match buildEntries files ((current_offset + content.length % U32_MOD) % U32_MOD) with
      | .error err => .error err
      | .ok (es, blob) =>
        .ok ({ filename := filename_bytes, offset := current_offset,
               length := content.length % U32_MOD } :: es, content ++ blob)

/-- Lines 179–197: build the archive header from the directory name (with
`.aos` appended, truncated to fit the 261-byte buffer) and the entry
count. `0x2E 0x61 0x6F 0x73` is ".aos". -/
def packHeader (dirName : List Nat) (entryCount : Nat) : AosV2Hdr :=
  let archive_name_str := dirName ++ [46, 97, 111, 115]
  let name_len := min archive_name_str.length (ARCHIVE_NAME_SIZE - 1)
  let toc_length := entryCount * ENTRY_SIZE % U32_MOD
  { unknown1 := 0,
    data_offset := (HEADER_SIZE + toc_length) % U32_MOD,
    toc_length := toc_length,
    archive_name :=
      archive_name_str.take name_len ++
        List.replicate (ARCHIVE_NAME_SIZE - name_len) 0 }

/-- `pack_directory` (lines 128–217). `files` is the enumeration the
`fs::read_dir` + `is_file` filter yields: (filename UTF-8 bytes, content)
per regular file, in directory order. Returns the bytes written to the
`.aos` output file: header, then each encoded entry in order, then the
data blob. An error return models the `bail!`s before the output file is
created (line 201): no archive file exists in that case. -/
def pack_directory (dirName : List Nat) (files : List (List Nat × List Nat)) :
    Except AosError (List Nat) :=
  if files.isEmpty then .error .emptyDirectory
  else
    match buildEntries files 0 with
    | .error err => .error err
    | .ok (entries, data_blob) =>
      .ok ((packHeader dirName entries.length).to_bytes ++
        (entries.map AosV2Entry.to_bytes).flatten ++ data_blob)

/-- Split a path string (as UTF-8 bytes) into components at `/` (0x2F). -/
def splitComponents (path : List Nat) : List (List Nat) :=
  List.splitOn 47 path

/-- Line 111: `output_dir.join(&filename_str)` — `Path::join` appends the
argument's components to the directory's, unless the argument is absolute
(leading `/`), in which case it replaces the path entirely. No
sanitization of the filename takes place. -/
def joinedWritePath (outputDir filename : List Nat) : List (List Nat) :=
  if filename.head? = some 47 then splitComponents filename
  else splitComponents outputDir ++ splitComponents filename

/-- Lexical resolution of `..` components, as the operating system resolves
the written path: `..` pops the last retained component. -/
def resolveDots (comps : List (List Nat)) : List (List Nat) :=
  comps.foldl
    (fun acc c => if c = [46, 46] then acc.dropLast else acc ++ [c]) []

/-- Whether writing `filename` inside `outputDir` resolves to a location
outside `outputDir`. -/
def escapesOutputDir (outputDir filename : List Nat) : Bool :=
  !(resolveDots (splitComponents outputDir)).isPrefixOf
    (resolveDots (joinedWritePath outputDir filename))

/-! ### Basic serialization lemmas -/

theorem length_u32ToLe (n : Nat) : (u32ToLe n).length = 4 := rfl

theorem leU32_u32ToLe (n : Nat) (r : List Nat) :
    leU32 (u32ToLe n ++ r) = n % U32_MOD := by
  simp only [u32ToLe, leU32, List.cons_append, List.nil_append, U32_MOD]
  omega

theorem drop4_u32ToLe (n : Nat) (r : List Nat) : (u32ToLe n ++ r).drop 4 = r := rfl

theorem drop8_u32ToLe (a b : Nat) (r : List Nat) :
    (u32ToLe a ++ (u32ToLe b ++ r)).drop 8 = r := rfl

theorem drop12_u32ToLe (a b c : Nat) (r : List Nat) :
    (u32ToLe a ++ (u32ToLe b ++ (u32ToLe c ++ r))).drop 12 = r := rfl

theorem leU32_u32ToLe_nil (n : Nat) : leU32 (u32ToLe n) = n % U32_MOD := by
  simpa using leU32_u32ToLe n []

theorem readExact_append (n : Nat) (s r : List Nat) (h : s.length = n) :
    readExact n (s ++ r) = some (s, r) := by
  subst h
  simp [readExact, List.take_left, List.drop_left]

theorem hdr_to_bytes_length (h : AosV2Hdr)
    (hname : h.archive_name.length = ARCHIVE_NAME_SIZE) :
    h.to_bytes.length = HEADER_SIZE := by
  simp [AosV2Hdr.to_bytes, u32ToLe, hname, ARCHIVE_NAME_SIZE, HEADER_SIZE]

theorem entry_to_bytes_length (e : AosV2Entry)
    (hname : e.filename.length = FILENAME_SIZE) :
    e.to_bytes.length = ENTRY_SIZE := by
  simp [AosV2Entry.to_bytes, u32ToLe, hname, FILENAME_SIZE, ENTRY_SIZE]

theorem hdr_from_reader_to_bytes (h : AosV2Hdr) (r : List Nat)
    (hu : h.unknown1 < U32_MOD) (hd : h.data_offset < U32_MOD)
    (ht : h.toc_length < U32_MOD)
    (hname : h.archive_name.length = ARCHIVE_NAME_SIZE) :
    AosV2Hdr.from_reader (h.to_bytes ++ r) = some (h, r) := by
  obtain ⟨u, d, t, name⟩ := h
  rw [AosV2Hdr.from_reader,
    readExact_append HEADER_SIZE _ r (hdr_to_bytes_length _ hname)]
  show some (_, r) = some (_, r)
  rw [AosV2Hdr.to_bytes]
  simp only [List.append_assoc]
  rw [leU32_u32ToLe, drop4_u32ToLe, leU32_u32ToLe, drop8_u32ToLe,
    leU32_u32ToLe, drop12_u32ToLe]
  simp [Nat.mod_eq_of_lt hu, Nat.mod_eq_of_lt hd, Nat.mod_eq_of_lt ht]

theorem entry_from_reader_to_bytes (e : AosV2Entry) (r : List Nat)
    (ho : e.offset < U32_MOD) (hl : e.length < U32_MOD)
    (hname : e.filename.length = FILENAME_SIZE) :
    AosV2Entry.from_reader (e.to_bytes ++ r) = some (e, r) := by
  obtain ⟨name, o, l⟩ := e
  rw [AosV2Entry.from_reader,
    readExact_append ENTRY_SIZE _ r (entry_to_bytes_length _ hname)]
  show some (_, r) = some (_, r)
  rw [AosV2Entry.to_bytes]
  simp only [List.append_assoc]
  have hname32 : name.length = 32 := hname
  have htake : (name ++ (u32ToLe o ++ u32ToLe l)).take 32 = name := by
    rw [← hname32]
    exact List.take_left _ _
  have hdrop32 : (name ++ (u32ToLe o ++ u32ToLe l)).drop 32 = u32ToLe o ++ u32ToLe l := by
    rw [← hname32]
    exact List.drop_left _ _
  have hdrop36 : (name ++ (u32ToLe o ++ u32ToLe l)).drop 36 = u32ToLe l := by
    have h36 : (36 : Nat) = 32 + 4 := by omega
    rw [h36, ← List.drop_drop, hdrop32, drop4_u32ToLe]
  simp only [FILENAME_SIZE]
  rw [htake, hdrop32, hdrop36, leU32_u32ToLe, leU32_u32ToLe_nil,
    Nat.mod_eq_of_lt ho, Nat.mod_eq_of_lt hl]

/-! ### Filename buffer lemmas -/

theorem findIdx_zero_pad (name : List Nat) (k : Nat) (hk : 0 < k)
    (hnz : 0 ∉ name) :
    (name ++ List.replicate k 0).findIdx? (· == 0) = some name.length := by
  induction name with
  | nil =>
    cases k with
    | zero => omega
    | succ k' => simp [List.replicate_succ, List.findIdx?_cons]
  | cons a name ih =>
    rw [List.mem_cons] at hnz
    push_neg at hnz
    obtain ⟨ha, hm⟩ := hnz
    have ha' : (a == 0) = false := by
      simp only [beq_eq_false_iff_ne, ne_eq]
      exact fun h => ha h.symm
    rw [List.cons_append, List.findIdx?_cons, List.findIdx?_succ, ha']
    simp [ih hm]

theorem take_findIdx_eq_takeWhile (l : List Nat) :
    l.take ((l.findIdx? (· == 0)).getD l.length) =
      l.takeWhile (fun b => !(b == 0)) := by
  induction l with
  | nil => simp
  | cons a l ih =>
    by_cases ha : a = 0
    · subst ha
      simp [List.findIdx?_cons, List.takeWhile_cons]
    · have ha' : (a == 0) = false := by
        simp only [beq_eq_false_iff_ne, ne_eq]
        exact ha
      rw [List.findIdx?_cons, List.findIdx?_succ, ha']
      simp only [Bool.false_eq_true, if_false, List.takeWhile_cons, ha',
        Bool.not_false, if_true, List.length_cons]
      cases h : l.findIdx? (· == 0) with
      | none =>
        rw [h] at ih
        simp only [Option.getD_none] at ih
        simp [ih]
      | some i =>
        rw [h] at ih
        simp only [Option.getD_some] at ih
        simp [ih]

theorem get_filename_str_pad (name : List Nat) (o l : Nat)
    (hlen : name.length < FILENAME_SIZE) (hnz : 0 ∉ name)
    (hv : validUtf8 name = true) :
    AosV2Entry.get_filename_str
      { filename := name ++ List.replicate (FILENAME_SIZE - name.length) 0,
        offset := o, length := l } = .ok name := by
  unfold AosV2Entry.get_filename_str
  simp only
  rw [findIdx_zero_pad name _ (by omega) hnz]
  simp only [Option.getD_some]
  rw [List.take_left' rfl, hv]
  simp

/-! ### TOC reading lemmas -/

theorem readEntries_encode (es : List AosV2Entry) (r : List Nat)
    (hv : ∀ e ∈ es, e.offset < U32_MOD ∧ e.length < U32_MOD ∧
      e.filename.length = FILENAME_SIZE) :
    readEntries es.length ((es.map AosV2Entry.to_bytes).flatten ++ r) =
      some (es, r) := by
  induction es with
  | nil => simp [readEntries]
  | cons e es ih =>
    obtain ⟨ho, hl, hn⟩ := hv e (List.mem_cons_self e es)
    rw [List.length_cons, List.map_cons, List.flatten_cons, List.append_assoc,
      readEntries, entry_from_reader_to_bytes e _ ho hl hn]
    dsimp only
    rw [ih (fun e' he' => hv e' (List.mem_cons_of_mem e he'))]

theorem readEntries_length (n : Nat) (s : List Nat) (es : List AosV2Entry)
    (r : List Nat) (h : readEntries n s = some (es, r)) : es.length = n := by
  induction n generalizing s es r with
  | zero =>
    rw [readEntries] at h
    cases h
    rfl
  | succ n ih =>
    rw [readEntries] at h
    cases hfr : AosV2Entry.from_reader s with
    | none => rw [hfr] at h; cases h
    | some p =>
      obtain ⟨e1, rest1⟩ := p
      rw [hfr] at h
      dsimp only at h
      cases hre : readEntries n rest1 with
      | none => rw [hre] at h; cases h
      | some q =>
        obtain ⟨es1, r1⟩ := q
        rw [hre] at h
        dsimp only at h
        cases h
        simp [ih _ _ _ hre]

/-! ### Extraction loop lemmas -/

theorem extractEntries_ok_length (archive : List Nat) (base : Nat)
    (es : List AosV2Entry)
    (h : (extractEntries archive base es).2 = none) :
    (extractEntries archive base es).1.length = es.length := by
  induction es with
  | nil => rfl
  | cons e es ih =>
    rw [extractEntries] at h ⊢
    cases hee : extractEntry archive base e with
    | error err => rw [hee] at h; cases h
    | ok p =>
      rw [hee] at h
      dsimp only at h ⊢
      simp [ih h]

/-! ### Packer lemmas -/

/-- Total number of content bytes in a file list. -/
def totalLen (files : List (List Nat × List Nat)) : Nat :=
  (files.map (fun p => p.2.length)).sum

theorem totalLen_nil : totalLen [] = 0 := rfl

theorem totalLen_cons (f : List Nat × List Nat) (fs : List (List Nat × List Nat)) :
    totalLen (f :: fs) = f.2.length + totalLen fs := by
  simp [totalLen]

theorem string_to_filename_short (name : List Nat)
    (h : name.length < FILENAME_SIZE) :
    string_to_filename name =
      .ok (name ++ List.replicate (FILENAME_SIZE - name.length) 0) := by
  rw [string_to_filename, if_neg (by omega)]

theorem buildEntries_spec (files : List (List Nat × List Nat)) (o : Nat)
    (hnames : ∀ p ∈ files, p.1.length < FILENAME_SIZE) (ho : o < U32_MOD) :
    ∃ entries blob,
      buildEntries files o = .ok (entries, blob) ∧
      entries.length = files.length ∧
      blob = (files.map Prod.snd).flatten ∧
      ∀ e ∈ entries, e.offset < U32_MOD ∧ e.length < U32_MOD ∧
        e.filename.length = FILENAME_SIZE := by
  induction files generalizing o with
  | nil => exact ⟨[], [], rfl, rfl, rfl, by simp⟩
  | cons f fs ih =>
    obtain ⟨name, c⟩ := f
    have hn : name.length < FILENAME_SIZE :=
      hnames (name, c) (List.mem_cons_self _ _)
    obtain ⟨es, blob, hbe, hlen, hblob, hval⟩ :=
      ih ((o + c.length % U32_MOD) % U32_MOD)
        (fun p hp => hnames p (List.mem_cons_of_mem _ hp))
        (Nat.mod_lt _ (by decide))
    refine ⟨AosV2Entry.mk (name ++ List.replicate (FILENAME_SIZE - name.length) 0)
      o (c.length % U32_MOD) :: es, c ++ blob, ?_, ?_, ?_, ?_⟩
    · rw [buildEntries, string_to_filename_short name hn]
      dsimp only
      rw [hbe]
    · simp [hlen]
    · simp [hblob]
    · intro e he
      rcases List.mem_cons.mp he with rfl | he'
      · refine ⟨ho, Nat.mod_lt _ (by decide), ?_⟩
        simp only [List.length_append, List.length_replicate]
        omega
      · exact hval e he'

theorem buildEntries_fields (files : List (List Nat × List Nat)) (o : Nat)
    (entries : List AosV2Entry) (blob : List Nat)
    (hb : buildEntries files o = .ok (entries, blob))
    (hbound : o + totalLen files < U32_MOD) :
    ∀ i eo fo, entries[i]? = some eo → files[i]? = some fo →
      eo.offset = o + totalLen (files.take i) ∧ eo.length = fo.2.length := by
  induction files generalizing o entries blob with
  | nil =>
    rw [buildEntries] at hb
    cases hb
    intro i eo fo he _
    simp at he
  | cons f fs ih =>
    obtain ⟨name, c⟩ := f
    rw [totalLen_cons] at hbound
    dsimp only at hbound
    rw [buildEntries] at hb
    cases hst : string_to_filename name with
    | error err => rw [hst] at hb; cases hb
    | ok fb =>
      rw [hst] at hb
      dsimp only at hb
      have hcl : c.length % U32_MOD = c.length := Nat.mod_eq_of_lt (by omega)
      have ho' : (o + c.length % U32_MOD) % U32_MOD = o + c.length := by
        rw [hcl]
        exact Nat.mod_eq_of_lt (by omega)
      cases hre : buildEntries fs ((o + c.length % U32_MOD) % U32_MOD) with
      | error err => rw [hre] at hb; cases hb
      | ok q =>
        obtain ⟨es, blob'⟩ := q
        rw [hre] at hb
        dsimp only at hb
        cases hb
        rw [ho'] at hre
        intro i eo fo he hf
        cases i with
        | zero =>
          rw [List.getElem?_cons_zero] at he hf
          cases he
          cases hf
          exact ⟨by simp [totalLen_nil], hcl⟩
        | succ i =>
          rw [List.getElem?_cons_succ] at he hf
          obtain ⟨h1, h2⟩ := ih (o + c.length) es blob' hre (by omega) i eo fo he hf
          rw [List.take_succ_cons, totalLen_cons]
          dsimp only
          omega

theorem extract_build (files : List (List Nat × List Nat)) (o : Nat)
    (archive : List Nat) (base : Nat)
    (hnames : ∀ p ∈ files,
      p.1.length < FILENAME_SIZE ∧ 0 ∉ p.1 ∧ validUtf8 p.1 = true)
    (hbound : o + totalLen files < U32_MOD)
    (entries : List AosV2Entry) (blob tail : List Nat)
    (hb : buildEntries files o = .ok (entries, blob))
    (harch : archive.drop (base + o) = blob ++ tail)
    (hle : base + o ≤ archive.length) :
    extractEntries archive base entries = (files, none) := by
  induction files generalizing o entries blob tail with
  | nil =>
    rw [buildEntries] at hb
    cases hb
    rfl
  | cons f fs ih =>
    obtain ⟨name, c⟩ := f
    obtain ⟨hn, hnz, hutf⟩ := hnames _ (List.mem_cons_self _ _)
    rw [totalLen_cons] at hbound
    dsimp only at hbound hn hnz hutf
    rw [buildEntries, string_to_filename_short name hn] at hb
    dsimp only at hb
    have hcl : c.length % U32_MOD = c.length := Nat.mod_eq_of_lt (by omega)
    have ho' : (o + c.length % U32_MOD) % U32_MOD = o + c.length := by
      rw [hcl]
      exact Nat.mod_eq_of_lt (by omega)
    cases hre : buildEntries fs ((o + c.length % U32_MOD) % U32_MOD) with
    | error err => rw [hre] at hb; cases hb
    | ok q =>
      obtain ⟨es, blob'⟩ := q
      rw [hre] at hb
      dsimp only at hb
      cases hb
      rw [ho'] at hre
      have hlendrop := congrArg List.length harch
      rw [List.length_drop, List.length_append, List.length_append] at hlendrop
      rw [extractEntries]
      have hext : extractEntry archive base
          (AosV2Entry.mk (name ++ List.replicate (FILENAME_SIZE - name.length) 0)
            o (c.length % U32_MOD)) = .ok (name, c) := by
        rw [extractEntry, get_filename_str_pad name _ _ hn hnz hutf]
        dsimp only
        rw [hcl, harch, List.append_assoc,
          readExact_append c.length c (blob' ++ tail) rfl]
      rw [hext]
      dsimp only
      have harch2 : archive.drop (base + (o + c.length)) = blob' ++ tail := by
        have hd : base + (o + c.length) = (base + o) + c.length := by omega
        rw [hd, ← List.drop_drop, harch, List.append_assoc, List.drop_left]
      have hle2 : base + (o + c.length) ≤ archive.length := by omega
      rw [ih (o + c.length)
        (fun p hp => hnames p (List.mem_cons_of_mem _ hp)) (by omega)
        es blob' tail hre harch2 hle2]

/-- Byte length of the encoded TOC. -/
theorem flatten_toc_length (entries : List AosV2Entry)
    (h : ∀ e ∈ entries, e.filename.length = FILENAME_SIZE) :
    ((entries.map AosV2Entry.to_bytes).flatten).length =
      entries.length * ENTRY_SIZE := by
  induction entries with
  | nil => rfl
  | cons e es ih =>
    rw [List.map_cons, List.flatten_cons, List.length_append,
      entry_to_bytes_length e (h e (List.mem_cons_self _ _)),
      ih (fun e' he' => h e' (List.mem_cons_of_mem _ he'))]
    rw [List.length_cons]
    ring

theorem packHeader_archive_name_length (d : List Nat) (n : Nat) :
    (packHeader d n).archive_name.length = ARCHIVE_NAME_SIZE := by
  simp only [packHeader, List.length_append, List.length_take,
    List.length_replicate, List.length_append, ARCHIVE_NAME_SIZE]
  omega

theorem packHeader_toc_length (d : List Nat) (n : Nat) :
    (packHeader d n).toc_length = n * ENTRY_SIZE % U32_MOD := rfl

theorem packHeader_unknown1 (d : List Nat) (n : Nat) :
    (packHeader d n).unknown1 = 0 := rfl

theorem packHeader_data_offset (d : List Nat) (n : Nat) :
    (packHeader d n).data_offset = (HEADER_SIZE + n * ENTRY_SIZE % U32_MOD) % U32_MOD := rfl

theorem packHeader_bounds (d : List Nat) (n : Nat) :
    (packHeader d n).unknown1 < U32_MOD ∧
      (packHeader d n).data_offset < U32_MOD ∧
      (packHeader d n).toc_length < U32_MOD :=
  ⟨by rw [packHeader_unknown1]; decide,
    by rw [packHeader_data_offset]; exact Nat.mod_lt _ (by decide),
    by rw [packHeader_toc_length]; exact Nat.mod_lt _ (by decide)⟩

/-- Round trip of the whole pipeline when nothing overflows `u32`:
unpacking a packed archive returns exactly the packed file list. -/
theorem unpack_pack (d : List Nat) (files : List (List Nat × List Nat))
    (hne : files ≠ [])
    (hnames : ∀ p ∈ files,
      p.1.length < FILENAME_SIZE ∧ 0 ∉ p.1 ∧ validUtf8 p.1 = true)
    (htotal : totalLen files < U32_MOD)
    (hcount : files.length * ENTRY_SIZE < U32_MOD)
    (a : List Nat) (hp : pack_directory d files = .ok a) :
    unpack_archive a = .ok files := by
  obtain ⟨entries, blob, hbe, hlen, hblob, hval⟩ :=
    buildEntries_spec files 0 (fun p hp' => (hnames p hp').1) (by decide)
  have hempty : files.isEmpty = false := by
    cases files with
    | nil => exact absurd rfl hne
    | cons f fs => rfl
  rw [pack_directory, hempty] at hp
  simp only [Bool.false_eq_true, if_false] at hp
  rw [hbe] at hp
  dsimp only at hp
  cases hp
  have hcnt2 : entries.length * ENTRY_SIZE < U32_MOD := by rw [hlen]; exact hcount
  have htl : (packHeader d entries.length).toc_length = entries.length * ENTRY_SIZE := by
    rw [packHeader_toc_length]
    exact Nat.mod_eq_of_lt hcnt2
  obtain ⟨hb1, hb2, hb3⟩ := packHeader_bounds d entries.length
  have htoclen : ((entries.map AosV2Entry.to_bytes).flatten).length =
      entries.length * ENTRY_SIZE :=
    flatten_toc_length entries (fun e he => (hval e he).2.2)
  rw [unpack_archive, unpack_core, List.append_assoc,
    hdr_from_reader_to_bytes _ _ hb1 hb2 hb3
      (packHeader_archive_name_length d entries.length)]
  dsimp only
  have hcount' : unpack_entry_count (packHeader d entries.length) = entries.length := by
    rw [unpack_entry_count, htl]
    exact Nat.mul_div_cancel _ (by decide)
  rw [hcount', readEntries_encode entries blob hval]
  dsimp only
  have hbase : unpack_base_offset (packHeader d entries.length) =
      HEADER_SIZE + entries.length * ENTRY_SIZE := by
    rw [unpack_base_offset, htl]
  have harch : ((packHeader d entries.length).to_bytes ++
      ((entries.map AosV2Entry.to_bytes).flatten ++ blob)).drop
        (unpack_base_offset (packHeader d entries.length) + 0) = blob ++ [] := by
    rw [Nat.add_zero, hbase, ← List.append_assoc, List.append_nil]
    have hplen : ((packHeader d entries.length).to_bytes ++
        (entries.map AosV2Entry.to_bytes).flatten).length =
          HEADER_SIZE + entries.length * ENTRY_SIZE := by
      rw [List.length_append,
        hdr_to_bytes_length _ (packHeader_archive_name_length d entries.length),
        htoclen]
    rw [← hplen, List.drop_left]
  have hle : unpack_base_offset (packHeader d entries.length) + 0 ≤
      ((packHeader d entries.length).to_bytes ++
        ((entries.map AosV2Entry.to_bytes).flatten ++ blob)).length := by
    rw [Nat.add_zero, hbase, List.length_append, List.length_append,
      hdr_to_bytes_length _ (packHeader_archive_name_length d entries.length),
      htoclen]
    omega
  rw [extract_build files 0 _ _ hnames (by omega) entries blob [] hbe harch hle]

theorem readExact_zero (s : List Nat) : readExact 0 s = some ([], s) := by
  rw [readExact, if_pos (Nat.zero_le _)]
  rfl

theorem extractEntries_append_fail (archive : List Nat) (base : Nat)
    (pre : List AosV2Entry) (e : AosV2Entry) (post : List AosV2Entry)
    (err : AosError)
    (hpre : ∀ e' ∈ pre, ∃ p, extractEntry archive base e' = .ok p)
    (hfail : extractEntry archive base e = .error err) :
    extractEntries archive base (pre ++ e :: post) =
      ((extractEntries archive base pre).1, some err) := by
  induction pre with
  | nil =>
    rw [List.nil_append]
    simp [extractEntries, hfail]
  | cons q pres ih =>
    obtain ⟨v, hv⟩ := hpre q (List.mem_cons_self _ _)
    rw [List.cons_append, extractEntries, hv]
    dsimp only
    rw [ih (fun q' hq' => hpre q' (List.mem_cons_of_mem _ hq'))]
    rw [extractEntries, hv]

/-! ### Claim theorems -/

/-- C2: decoding the encoding of any well-typed header value yields the
value back (with nothing left unread), and likewise for TOC entries. -/
theorem schema_roundtrip :
    (∀ h : AosV2Hdr, hdrValid h →
      AosV2Hdr.from_reader h.to_bytes = some (h, [])) ∧
    (∀ e : AosV2Entry, entryValid e →
      AosV2Entry.from_reader e.to_bytes = some (e, [])) := by
  constructor
  · intro h hv
    obtain ⟨h1, h2, h3, h4, -⟩ := hv
    have hh := hdr_from_reader_to_bytes h [] h1 h2 h3 h4
    rwa [List.append_nil] at hh
  · intro e hv
    obtain ⟨h1, -, h3, h4⟩ := hv
    have he := entry_from_reader_to_bytes e [] h3 h4 h1
    rwa [List.append_nil] at he

/-- Witness for C2 at a concrete header and entry. -/
theorem schema_roundtrip_witness :
    AosV2Hdr.from_reader (AosV2Hdr.mk 1 2 3 (List.replicate 261 7)).to_bytes =
      some (AosV2Hdr.mk 1 2 3 (List.replicate 261 7), []) ∧
    AosV2Entry.from_reader
        (AosV2Entry.mk (List.replicate 32 5) 8 9).to_bytes =
      some (AosV2Entry.mk (List.replicate 32 5) 8 9, []) :=
  ⟨schema_roundtrip.1 _ (by decide), schema_roundtrip.2 _ (by decide)⟩

/-- C9: packing an enumeration with no regular files fails with
`EmptyDirectory`; the error is raised before the output archive is
created, so no archive bytes are produced. -/
theorem pack_empty_directory (d : List Nat) :
    pack_directory d [] = .error .emptyDirectory := rfl

/-- C7: a source filename of exactly 31 bytes is accepted (zero-padded
with the terminator), any name of 32 bytes or more is rejected with
`FilenameTooLong` (both by `string_to_filename` and by the whole
`pack_directory` call), and any accepted name is copied into the 32-byte
buffer with the remainder zero-filled. -/
theorem filename_length_check (name d c : List Nat)
    (fs : List (List Nat × List Nat)) :
    (name.length = FILENAME_SIZE - 1 →
      string_to_filename name = .ok (name ++ [0])) ∧
    (FILENAME_SIZE ≤ name.length →
      string_to_filename name = .error .filenameTooLong) ∧
    (name.length < FILENAME_SIZE →
      string_to_filename name =
        .ok (name ++ List.replicate (FILENAME_SIZE - name.length) 0)) ∧
    (FILENAME_SIZE ≤ name.length →
      pack_directory d ((name, c) :: fs) = .error .filenameTooLong) := by
  refine ⟨?_, ?_, ?_, ?_⟩
  · intro h
    rw [string_to_filename_short name (by rw [h]; decide), h,
      show FILENAME_SIZE - (FILENAME_SIZE - 1) = 1 from rfl,
      List.replicate_one]
  · intro h
    rw [string_to_filename, if_pos h]
  · intro h
    exact string_to_filename_short name h
  · intro h
    rw [pack_directory]
    have hne : ((name, c) :: fs).isEmpty = false := rfl
    rw [hne]
    simp only [Bool.false_eq_true, if_false]
    rw [buildEntries, string_to_filename, if_pos h]

/-- Witness for C7 at a 31-byte name, two 32-byte names and a 1-byte name. -/
theorem filename_length_check_witness :
    string_to_filename (List.replicate 31 97) =
      .ok (List.replicate 31 97 ++ [0]) ∧
    string_to_filename (List.replicate 32 97) = .error .filenameTooLong ∧
    string_to_filename [97] = .ok ([97] ++ List.replicate 31 0) ∧
    pack_directory [100] [(List.replicate 32 97, [5])] =
      .error .filenameTooLong :=
  ⟨(filename_length_check (List.replicate 31 97) [100] [] []).1 (by decide),
   (filename_length_check (List.replicate 32 97) [100] [] []).2.1 (by decide),
   (filename_length_check [97] [100] [] []).2.2.1 (by decide),
   (filename_length_check (List.replicate 32 97) [100] [5] []).2.2.2 (by decide)⟩

/-- C8: `get_filename_str` decodes exactly the bytes strictly before the
first zero of the 32-byte buffer (the whole buffer if it has no zero,
since the fallback index equals the buffer size), succeeding iff those
bytes are valid UTF-8 and failing with `InvalidFilename` otherwise. -/
theorem get_filename_str_spec (e : AosV2Entry)
    (hlen : e.filename.length = FILENAME_SIZE) :
    (validUtf8 (e.filename.takeWhile (fun b => !(b == 0))) = true →
      e.get_filename_str =
        .ok (e.filename.takeWhile (fun b => !(b == 0)))) ∧
    (validUtf8 (e.filename.takeWhile (fun b => !(b == 0))) = false →
      e.get_filename_str = .error .invalidFilename) := by
  have hkey : e.filename.take
      ((e.filename.findIdx? (· == 0)).getD FILENAME_SIZE) =
      e.filename.takeWhile (fun b => !(b == 0)) := by
    rw [← hlen]
    exact take_findIdx_eq_takeWhile e.filename
  constructor
  · intro hv
    simp only [AosV2Entry.get_filename_str]
    rw [hkey, hv]
    simp
  · intro hv
    simp only [AosV2Entry.get_filename_str]
    rw [hkey, hv]
    simp

/-- Witness for C8 at a valid ("hi") and an invalid (0xFF) buffer. -/
theorem get_filename_str_spec_witness :
    (AosV2Entry.mk ([104, 105] ++ List.replicate 30 0) 0 0).get_filename_str =
      .ok [104, 105] ∧
    (AosV2Entry.mk (255 :: List.replicate 31 0) 0 0).get_filename_str =
      .error .invalidFilename :=
  ⟨(get_filename_str_spec _ (by decide)).1 (by decide),
   (get_filename_str_spec _ (by decide)).2 (by decide)⟩

/-- C3 (amended): the unpacker computes the entry count as
`toc_length / 40` with truncating integer division; a `toc_length` that is
not a multiple of the entry size is silently rounded down, not rejected —
the code has no `MalformedToc` check. Every successful unpack extracts
exactly `toc_length / 40` files. -/
theorem unpack_count_div (hdr : AosV2Hdr) (rest : List Nat)
    (l : List (List Nat × List Nat)) (hv : hdrValid hdr)
    (hok : unpack_archive (hdr.to_bytes ++ rest) = .ok l) :
    l.length = hdr.toc_length / ENTRY_SIZE := by
  obtain ⟨h1, h2, h3, h4, -⟩ := hv
  rw [unpack_archive, unpack_core,
    hdr_from_reader_to_bytes hdr rest h1 h2 h3 h4] at hok
  dsimp only at hok
  cases hre : readEntries (unpack_entry_count hdr) rest with
  | none => rw [hre] at hok; cases hok
  | some q =>
    obtain ⟨entries, r2⟩ := q
    rw [hre] at hok
    dsimp only at hok
    cases hex : extractEntries (hdr.to_bytes ++ rest) (unpack_base_offset hdr)
        entries with
    | mk ps err =>
      rw [hex] at hok
      cases err with
      | none =>
        dsimp only at hok
        cases hok
        have h5 : (extractEntries (hdr.to_bytes ++ rest)
            (unpack_base_offset hdr) entries).2 = none := by rw [hex]
        have h6 := extractEntries_ok_length _ _ _ h5
        rw [hex] at h6
        dsimp only at h6
        rw [h6, readEntries_length _ _ _ _ hre]
        rfl
      | some e2 => dsimp only at hok; cases hok

/-- Counterexample to C3 as stated: an archive whose header carries
`toc_length = 1` (not a multiple of 40) is not rejected at all — unpack
succeeds with zero entries instead of failing with a `MalformedToc`
error. -/
theorem unpack_count_cex :
    unpack_archive (AosV2Hdr.mk 0 0 1 (List.replicate 261 0)).to_bytes =
      .ok [] ∧ (1 : Nat) % ENTRY_SIZE ≠ 0 := by
  constructor
  · rfl
  · decide

/-- Witness for the amended C3 at a concrete archive (`toc_length = 0`,
zero entries extracted). -/
theorem unpack_count_div_witness :
    ([] : List (List Nat × List Nat)).length =
      (AosV2Hdr.mk 0 0 0 (List.replicate 261 0)).toc_length / ENTRY_SIZE :=
  unpack_count_div (AosV2Hdr.mk 0 0 0 (List.replicate 261 0)) [] []
    (by decide) (by rfl)

/-- C4: byte-exact layout. The encoded header is exactly 273 bytes, each
encoded entry exactly 40; decoding consumes exactly the first 273 bytes
and the unpacker's data region starts at `273 + toc_length` (each entry's
bytes are read at `base_offset + offset`, `length` long); the packer lays
out header at 0, TOC at 273 (40 bytes per entry) and the data blob at
`273 + toc_length`. -/
theorem layout_byte_exact :
    (∀ h : AosV2Hdr, h.archive_name.length = ARCHIVE_NAME_SIZE →
      h.to_bytes.length = 273) ∧
    (∀ e : AosV2Entry, e.filename.length = FILENAME_SIZE →
      e.to_bytes.length = 40) ∧
    (∀ a hdr rest, AosV2Hdr.from_reader a = some (hdr, rest) →
      273 ≤ a.length ∧ rest = a.drop 273 ∧
        unpack_base_offset hdr = 273 + hdr.toc_length) ∧
    (∀ a base e name content, extractEntry a base e = .ok (name, content) →
      content = (a.drop (base + e.offset)).take e.length) ∧
    (∀ d files a entries blob,
      (∀ p ∈ files, p.1.length < FILENAME_SIZE) →
      files.length * ENTRY_SIZE < U32_MOD →
      pack_directory d files = .ok a →
      buildEntries files 0 = .ok (entries, blob) →
      a.take 273 = (packHeader d entries.length).to_bytes ∧
      (a.drop 273).take (entries.length * 40) =
        (entries.map AosV2Entry.to_bytes).flatten ∧
      a.drop (273 + (packHeader d entries.length).toc_length) = blob) := by
  refine ⟨?_, ?_, ?_, ?_, ?_⟩
  · intro h hn
    exact hdr_to_bytes_length h hn
  · intro e hn
    exact entry_to_bytes_length e hn
  · intro a hdr rest hfr
    rw [AosV2Hdr.from_reader, readExact] at hfr
    by_cases hle : HEADER_SIZE ≤ a.length
    · rw [if_pos hle] at hfr
      dsimp only at hfr
      cases hfr
      exact ⟨hle, rfl, rfl⟩
    · rw [if_neg hle] at hfr
      cases hfr
  · intro a base e name content hex
    rw [extractEntry] at hex
    cases hfn : e.get_filename_str with
    | error err => rw [hfn] at hex; cases hex
    | ok n =>
      rw [hfn] at hex
      dsimp only at hex
      rw [readExact] at hex
      by_cases hle : e.length ≤ (a.drop (base + e.offset)).length
      · rw [if_pos hle] at hex
        dsimp only at hex
        cases hex
        rfl
      · rw [if_neg hle] at hex
        cases hex
  · intro d files a entries blob hnames hcount hp hbe
    cases files with
    | nil => rw [buildEntries] at hbe; cases hbe; cases hp
    | cons f fs =>
      have hempty : (f :: fs).isEmpty = false := rfl
      rw [pack_directory, hempty] at hp
      simp only [Bool.false_eq_true, if_false] at hp
      rw [hbe] at hp
      dsimp only at hp
      cases hp
      obtain ⟨entries', blob', hbe', hlen', hblob', hval'⟩ :=
        buildEntries_spec (f :: fs) 0 hnames (by decide)
      rw [hbe] at hbe'
      cases hbe'
      have hcnt2 : entries.length * ENTRY_SIZE < U32_MOD := by
        rw [hlen']; exact hcount
      have hhdr : (packHeader d entries.length).to_bytes.length = 273 :=
        hdr_to_bytes_length _ (packHeader_archive_name_length d _)
      have htoc : ((entries.map AosV2Entry.to_bytes).flatten).length =
          entries.length * ENTRY_SIZE :=
        flatten_toc_length entries (fun e he => (hval' e he).2.2)
      have htl : (packHeader d entries.length).toc_length =
          entries.length * ENTRY_SIZE := by
        rw [packHeader_toc_length]
        exact Nat.mod_eq_of_lt hcnt2
      refine ⟨?_, ?_, ?_⟩
      · rw [List.append_assoc, ← hhdr, List.take_left]
      · rw [List.append_assoc, ← hhdr, List.drop_left]
        rw [show entries.length * 40 = entries.length * ENTRY_SIZE from rfl,
          ← htoc, List.take_left]
      · rw [htl]
        have hplen : ((packHeader d entries.length).to_bytes ++
            (entries.map AosV2Entry.to_bytes).flatten).length =
              273 + entries.length * ENTRY_SIZE := by
          rw [List.length_append, hhdr, htoc]
        rw [← hplen, List.drop_left]

/-- Witness for C4 at concrete inputs for each clause. -/
theorem layout_byte_exact_witness :
    (AosV2Hdr.mk 0 0 40 (List.replicate 261 0)).to_bytes.length = 273 ∧
    (AosV2Entry.mk (List.replicate 32 97) 0 5).to_bytes.length = 40 ∧
    (273 ≤ (AosV2Hdr.mk 0 0 40 (List.replicate 261 0)).to_bytes.length ∧
      ([] : List Nat) =
        (AosV2Hdr.mk 0 0 40 (List.replicate 261 0)).to_bytes.drop 273 ∧
      unpack_base_offset (AosV2Hdr.mk 0 0 40 (List.replicate 261 0)) =
        273 + (AosV2Hdr.mk 0 0 40 (List.replicate 261 0)).toc_length) ∧
    ([8, 9] : List Nat) =
      (([5, 6, 7, 8, 9] : List Nat).drop
        (1 + (AosV2Entry.mk ([97] ++ List.replicate 31 0) 2 2).offset)).take
        (AosV2Entry.mk ([97] ++ List.replicate 31 0) 2 2).length ∧
    (((pack_directory [100] [([97], [1])]).toOption.getD []).take 273 =
        (packHeader [100] 1).to_bytes ∧
      ((((pack_directory [100] [([97], [1])]).toOption.getD []).drop 273).take
          (1 * 40)) =
        ([AosV2Entry.mk ([97] ++ List.replicate 31 0) 0 1].map
          AosV2Entry.to_bytes).flatten ∧
      ((pack_directory [100] [([97], [1])]).toOption.getD []).drop
          (273 + (packHeader [100] 1).toc_length) = [1]) :=
  ⟨layout_byte_exact.1 _ (by decide),
   layout_byte_exact.2.1 _ (by decide),
   layout_byte_exact.2.2.1 _ _ [] (by rfl),
   layout_byte_exact.2.2.2.1 [5, 6, 7, 8, 9] 1
     (AosV2Entry.mk ([97] ++ List.replicate 31 0) 2 2) [97] [8, 9] (by rfl),
   layout_byte_exact.2.2.2.2 [100] [([97], [1])] _
     [AosV2Entry.mk ([97] ++ List.replicate 31 0) 0 1] [1]
     (by decide) (by decide) (by rfl) (by rfl)⟩

/-- Packing a single file named "a" whose byte count is an exact multiple
of `2^32`: the `as u32` cast truncates the stored `length` field to 0.
The content stays abstract so that no proof step evaluates it. -/
theorem buildEntries_single_wrap (c : List Nat)
    (hclen : c.length % U32_MOD = 0) :
    buildEntries [([97], c)] 0 =
      .ok ([AosV2Entry.mk ([97] ++ List.replicate 31 0) 0 0], c) := by
  rw [buildEntries,
    string_to_filename_short [97] (by decide)]
  dsimp only
  rw [hclen]
  rw [buildEntries]
  dsimp only
  rw [List.append_nil,
    show FILENAME_SIZE - ([97] : List Nat).length = 31 from rfl]

/-- C5 (amended): provided the total content size and `40 × file count`
both fit in a `u32` (otherwise the `as u32` casts truncate), the packer
assigns the i-th entry the offset `sum of the lengths of files 0..i-1`,
the length `byte count of file i`, sets the header's `toc_length` to
`entry count × 40`, and the data blob is the concatenation of the file
contents in order. -/
theorem pack_toc_fields (d : List Nat) (files : List (List Nat × List Nat))
    (entries : List AosV2Entry) (blob : List Nat)
    (_hne : files ≠ [])
    (hnames : ∀ p ∈ files, p.1.length < FILENAME_SIZE)
    (htotal : totalLen files < U32_MOD)
    (hcount : files.length * ENTRY_SIZE < U32_MOD)
    (hbe : buildEntries files 0 = .ok (entries, blob)) :
    entries.length = files.length ∧
    (∀ i eo fo, entries[i]? = some eo → files[i]? = some fo →
      eo.offset = totalLen (files.take i) ∧ eo.length = fo.2.length) ∧
    (packHeader d files.length).toc_length = files.length * ENTRY_SIZE ∧
    blob = (files.map Prod.snd).flatten := by
  obtain ⟨entries', blob', hbe', hlen', hblob', hval'⟩ :=
    buildEntries_spec files 0 hnames (by decide)
  rw [hbe] at hbe'
  cases hbe'
  refine ⟨hlen', ?_, ?_, hblob'⟩
  · intro i eo fo he hf
    have hfield := buildEntries_fields files 0 entries blob hbe
      (by omega) i eo fo he hf
    simpa using hfield
  · rw [packHeader_toc_length]
    exact Nat.mod_eq_of_lt hcount

/-- Witness for the amended C5 at two concrete files. -/
theorem pack_toc_fields_witness :
    (packHeader [100] ([([97], [5, 6]), ([98], [7])] :
        List (List Nat × List Nat)).length).toc_length =
      ([([97], [5, 6]), ([98], [7])] : List (List Nat × List Nat)).length *
        ENTRY_SIZE ∧
    (AosV2Entry.mk ([98] ++ List.replicate 31 0) 2 1).offset =
      totalLen (([([97], [5, 6]), ([98], [7])] :
        List (List Nat × List Nat)).take 1) := by
  obtain ⟨h1, h2, h3, h4⟩ := pack_toc_fields [100]
    [([97], [5, 6]), ([98], [7])]
    [AosV2Entry.mk ([97] ++ List.replicate 31 0) 0 2,
     AosV2Entry.mk ([98] ++ List.replicate 31 0) 2 1]
    [5, 6, 7] (by decide) (by decide) (by decide) (by decide) (by rfl)
  exact ⟨h3, (h2 1 (AosV2Entry.mk ([98] ++ List.replicate 31 0) 2 1)
    ([98], [7]) (by rfl) (by rfl)).1⟩

/-- Counterexample to C5 as stated: for a single input file of `2^32`
bytes the packer stores `length = 0` (the `as u32` cast truncates), not
the file's byte count. -/
theorem pack_toc_fields_cex :
    buildEntries [([97], List.replicate U32_MOD 0)] 0 =
      .ok ([AosV2Entry.mk ([97] ++ List.replicate 31 0) 0 0],
        List.replicate U32_MOD 0) ∧
    (List.replicate U32_MOD (0 : Nat)).length ≠ 0 := by
  refine ⟨buildEntries_single_wrap _
    (by rw [List.length_replicate]; exact Nat.mod_self _), ?_⟩
  rw [List.length_replicate]
  decide

/-- C6: when the extraction loop reaches a TOC entry whose data range
`[base_offset + offset, base_offset + offset + length)` extends past the
end of the archive bytes (all earlier entries having extracted cleanly and
the entry's own filename decoding fine), the unpack call fails with
`TruncatedData`, and the failing entry contributes no write: the files
written are exactly those of the earlier entries. A range "extends past
the end" when it is nonempty and reaches beyond the archive: a
zero-length entry reads nothing and cannot (`read_exact` with an empty
buffer succeeds without reading). -/
theorem truncated_data_aborts_entry (archive : List Nat) (hdr : AosV2Hdr)
    (rest r2 : List Nat) (entries pre post : List AosV2Entry)
    (e : AosV2Entry) (name : List Nat)
    (hfr : AosV2Hdr.from_reader archive = some (hdr, rest))
    (hre : readEntries (unpack_entry_count hdr) rest = some (entries, r2))
    (hsplit : entries = pre ++ e :: post)
    (hpre : ∀ e' ∈ pre, ∃ p,
      extractEntry archive (unpack_base_offset hdr) e' = .ok p)
    (hname : e.get_filename_str = .ok name)
    (hpos : 0 < e.length)
    (hover : archive.length < unpack_base_offset hdr + e.offset + e.length) :
    unpack_archive archive = .error .truncatedData ∧
    unpack_writes archive =
      (extractEntries archive (unpack_base_offset hdr) pre).1 := by
  have hfail : extractEntry archive (unpack_base_offset hdr) e =
      .error .truncatedData := by
    rw [extractEntry, hname]
    dsimp only
    rw [readExact, if_neg (by rw [List.length_drop]; omega)]
  have hcore : unpack_core archive =
      ((extractEntries archive (unpack_base_offset hdr) pre).1,
        some .truncatedData) := by
    rw [unpack_core, hfr]
    dsimp only
    rw [hre]
    dsimp only
    rw [hsplit]
    exact extractEntries_append_fail archive _ pre e post _ hpre hfail
  exact ⟨by rw [unpack_archive, hcore], by rw [unpack_writes, hcore]⟩

/-- Witness for C6: an archive whose single entry claims 5 data bytes
while the archive holds none. -/
theorem truncated_data_aborts_entry_witness :
    unpack_archive ((AosV2Hdr.mk 0 0 40 (List.replicate 261 0)).to_bytes ++
        (AosV2Entry.mk ([97] ++ List.replicate 31 0) 0 5).to_bytes) =
      .error .truncatedData ∧
    unpack_writes ((AosV2Hdr.mk 0 0 40 (List.replicate 261 0)).to_bytes ++
        (AosV2Entry.mk ([97] ++ List.replicate 31 0) 0 5).to_bytes) = [] :=
  truncated_data_aborts_entry
    ((AosV2Hdr.mk 0 0 40 (List.replicate 261 0)).to_bytes ++
      (AosV2Entry.mk ([97] ++ List.replicate 31 0) 0 5).to_bytes)
    (AosV2Hdr.mk 0 0 40 (List.replicate 261 0))
    (AosV2Entry.mk ([97] ++ List.replicate 31 0) 0 5).to_bytes []
    [AosV2Entry.mk ([97] ++ List.replicate 31 0) 0 5] []
    [] (AosV2Entry.mk ([97] ++ List.replicate 31 0) 0 5) [97]
    (by rfl) (by rfl) (by rfl) (by simp) (by rfl) (by decide) (by decide)

/-- C1 (amended): for any two enumeration orders of the same set of files
(names valid UTF-8, shorter than 32 bytes, and — as the operating system
guarantees for real filenames — free of NUL bytes), provided the total
content size and `40 × file count` fit in a `u32` (otherwise the `as u32`
casts truncate), packing and then unpacking reproduces exactly the
enumerated files under either order, so the resulting set of
(filename, content) pairs is the same. -/
theorem pack_unpack_set_roundtrip (d₁ d₂ : List Nat)
    (files₁ files₂ : List (List Nat × List Nat))
    (hperm : files₁.Perm files₂)
    (hne : files₁ ≠ [])
    (hnames : ∀ p ∈ files₁,
      p.1.length < FILENAME_SIZE ∧ 0 ∉ p.1 ∧ validUtf8 p.1 = true)
    (htotal : totalLen files₁ < U32_MOD)
    (hcount : files₁.length * ENTRY_SIZE < U32_MOD)
    (a₁ a₂ : List Nat)
    (h₁ : pack_directory d₁ files₁ = .ok a₁)
    (h₂ : pack_directory d₂ files₂ = .ok a₂) :
    unpack_archive a₁ = .ok files₁ ∧ unpack_archive a₂ = .ok files₂ ∧
      files₁.Perm files₂ := by
  refine ⟨unpack_pack d₁ files₁ hne hnames htotal hcount a₁ h₁, ?_, hperm⟩
  refine unpack_pack d₂ files₂ ?_ ?_ ?_ ?_ a₂ h₂
  · intro h
    subst h
    exact hne hperm.eq_nil
  · intro p hp
    exact hnames p (hperm.mem_iff.mpr hp)
  · have hsum : totalLen files₂ = totalLen files₁ := by
      rw [totalLen, totalLen]
      exact ((hperm.map (fun p => p.2.length)).sum_eq).symm
    rw [hsum]
    exact htotal
  · rw [← hperm.length_eq]
    exact hcount

/-- Witness for the amended C1: two files packed in both orders. -/
theorem pack_unpack_set_roundtrip_witness :
    unpack_archive ((pack_directory [100]
        [([97], [1, 2]), ([98], [3])]).toOption.getD []) =
      .ok [([97], [1, 2]), ([98], [3])] ∧
    unpack_archive ((pack_directory [101]
        [([98], [3]), ([97], [1, 2])]).toOption.getD []) =
      .ok [([98], [3]), ([97], [1, 2])] ∧
    ([([97], [1, 2]), ([98], [3])] : List (List Nat × List Nat)).Perm
      [([98], [3]), ([97], [1, 2])] :=
  pack_unpack_set_roundtrip [100] [101]
    [([97], [1, 2]), ([98], [3])] [([98], [3]), ([97], [1, 2])]
    (by decide) (by decide) (by decide) (by decide) (by decide)
    _ _ (by rfl) (by rfl)

/-- Packing and then unpacking a single file named "a" whose byte count is
an exact multiple of `2^32` yields "a" with empty content: the truncated
`length` field makes the unpacker read zero bytes. The content stays
abstract so that no proof step evaluates it. -/
theorem unpack_pack_single_wrap (c : List Nat)
    (hclen : c.length % U32_MOD = 0) :
    Except.bind (pack_directory [100] [([97], c)]) unpack_archive =
      .ok [([97], [])] := by
  have hpack : pack_directory [100] [([97], c)] =
      .ok ((packHeader [100] 1).to_bytes ++
        ((AosV2Entry.mk ([97] ++ List.replicate 31 0) 0 0).to_bytes ++ c)) := by
    rw [pack_directory,
      show ([([97], c)] : List (List Nat × List Nat)).isEmpty = false from rfl]
    simp only [Bool.false_eq_true, if_false]
    rw [buildEntries_single_wrap c hclen]
    dsimp only
    rw [List.map_cons, List.map_nil, List.flatten_cons, List.flatten_nil,
      List.append_nil, List.append_assoc]
    rfl
  rw [hpack]
  dsimp only [Except.bind]
  rw [unpack_archive, unpack_core,
    hdr_from_reader_to_bytes _ _ (by decide) (by decide) (by decide)
      (by decide)]
  dsimp only
  have hre := readEntries_encode
    [AosV2Entry.mk ([97] ++ List.replicate 31 0) 0 0] c (by decide)
  rw [List.map_cons, List.map_nil, List.flatten_cons, List.flatten_nil,
    List.append_nil] at hre
  rw [show unpack_entry_count (packHeader [100] 1) =
    ([AosV2Entry.mk ([97] ++ List.replicate 31 0) 0 0] :
      List AosV2Entry).length from by decide]
  rw [hre]
  dsimp only
  rw [extractEntries]
  have hext : extractEntry ((packHeader [100] 1).to_bytes ++
      ((AosV2Entry.mk ([97] ++ List.replicate 31 0) 0 0).to_bytes ++ c))
      (unpack_base_offset (packHeader [100] 1))
      (AosV2Entry.mk ([97] ++ List.replicate 31 0) 0 0) = .ok ([97], []) := by
    rw [extractEntry,
      show (AosV2Entry.mk ([97] ++ List.replicate 31 0) 0 0).get_filename_str =
        .ok [97] from rfl]
    dsimp only
    rw [readExact_zero]
  rw [hext]
  dsimp only
  rw [extractEntries]

/-- Counterexample to C1 as stated: a directory with one file named "a"
(valid UTF-8, 1 byte) holding `2^32` zero bytes packs successfully, but
unpacking the archive yields "a" with empty content — the `as u32` cast
stored `length = 0` — so the set of (filename, content) pairs is not
reproduced. -/
theorem pack_unpack_set_roundtrip_cex :
    Except.bind (pack_directory [100] [([97], List.replicate U32_MOD 0)])
        unpack_archive = .ok [([97], [])] ∧
    List.replicate U32_MOD (0 : Nat) ≠ [] := by
  constructor
  · exact unpack_pack_single_wrap (List.replicate U32_MOD 0)
      (by rw [List.length_replicate]; exact Nat.mod_self _)
  · intro h
    have hl := congrArg List.length h
    rw [List.length_replicate, List.length_nil] at hl
    exact absurd hl (by decide)

/-- C10: the unpacker joins the output directory with the decoded filename
verbatim — no sanitization — so an archive whose stored filename is
"../x" makes the written path resolve outside the output directory "out":
the joined path is out/../x, whose lexical resolution is not under out. -/
theorem unpack_no_path_sanitization :
    unpack_archive ((AosV2Hdr.mk 0 0 40 (List.replicate 261 0)).to_bytes ++
        (AosV2Entry.mk ([46, 46, 47, 120] ++ List.replicate 28 0) 0 0).to_bytes) =
      .ok [([46, 46, 47, 120], [])] ∧
    joinedWritePath [111, 117, 116] [46, 46, 47, 120] =
      [[111, 117, 116], [46, 46], [120]] ∧
    escapesOutputDir [111, 117, 116] [46, 46, 47, 120] = true := by
  refine ⟨?_, by decide, by decide⟩
  rfl

end AosUp
